import Mathlib

/-!
Verification of the datatrove distributed shard-merge subsystem and the
pipeline steps present in the repository sources:

* `src/src/datatrove/pipeline/postprocess/zstd_compress.py` (`ZstdCompressor`)
* `src/src/datatrove/pipeline/filters/multi_fasttext_filter.py`
  (`MultiFastTextClassifierFilter`)
* `src/examples/fineweb-tokens-dist-workflow.py` (the three-stage workflow)

The merge-coordination core (AtomicArtifactWriter, MergePlanner, MergeExecutor,
StageDependencyGraph) is not present under the repository sources; those
components are modelled from the specification, and each such definition is
marked `Modelled from the spec:` in its doc comment.
-/

namespace Datatrove

/-! ## Python extended slicing (`ZstdCompressor.run`, zstd_compress.py line 70) -/

/-- Python extended slice `l[start::step]` for a nonnegative `start` and a
positive `step`: the elements at indices `start`, `start+step`, `start+2*step`,
... below `l.length`, in increasing index order.  Translated from
`self.files_to_process[rank::world_size]` in `ZstdCompressor.run`.  (Python
raises `ValueError` for `step = 0`; all claims assume `world_size ≥ 1`.) -/
def pySlice (l : List α) (start step : Nat) : List α :=
  ((List.range l.length).filter fun i => decide (start ≤ i ∧ (i - start) % step = 0)).filterMap
    fun i => l[i]?

/-- The indices of the original list assigned to rank `r` out of `W`:
those `i < N` with `i % W = r`. -/
def strideIndices (N W r : Nat) : List Nat :=
  (List.range N).filter fun i => decide (i % W = r)

/-! ## ZstdCompressor (zstd_compress.py) -/

/-- Model of a `DataFolder` (datatrove.io): the set of file paths it holds. -/
structure DataFolder where
  files : List String
deriving DecidableEq, Repr

/-- `DataFolder.rm_file`: removes a path from the folder. -/
def DataFolder.rm_file (d : DataFolder) (path : String) : DataFolder :=
  { files := d.files.erase path }

/-- A Python runtime error raised by the modelled code. -/
inductive PyError
  /-- `AttributeError: 'typ' object has no attribute 'attr'` -/
  | attributeError (typ attr : String)
  /-- `NameError: name 'nm' is not defined` -/
  | nameError (nm : String)
deriving DecidableEq, Repr

/-- `ZstdCompressor`: exactly the attributes assigned on `self` in `__init__`,
plus `input_folder`, which `__init__` never assigns (the local variable
`input_folder` is consumed but `self.input_folder = ...` never occurs), so the
attribute is absent: `none` means accessing `self.input_folder` raises
`AttributeError`. -/
structure ZstdCompressor where
  files_to_process : List String
  progress : Bool
  remove : Bool
  nthreads : Nat
  zstd_bin : String
  input_folder : Option DataFolder
deriving DecidableEq, Repr

/-- `ZstdCompressor.__init__`: resolves `files_to_process` from the explicit
`file_paths` argument (optionally joined onto `input_folder`) or by listing
`input_folder`; the external helpers `get_datafolder`, `_join` and
`list_files` (datatrove.io, outside the repository sources) are abstracted as
the already-resolved path list `resolved_files`.  It assigns
`self.files_to_process`, `self.progress`, `self.remove`, `self.nthreads` and
`self.zstd_bin` — and never `self.input_folder`. -/
def ZstdCompressor.init (resolved_files : List String) (progress remove : Bool)
    (nthreads : Nat) (zstd_bin : String) : ZstdCompressor :=
  { files_to_process := resolved_files
    progress := progress
    remove := remove
    nthreads := nthreads
    zstd_bin := zstd_bin
    input_folder := none }

/-- The externally observable effects of one `ZstdCompressor.run` call:
which files were compressed (`subprocess.check_output` of the zstd command)
and which were removed (`self.input_folder.rm_file`), in order. -/
structure RunTrace where
  compressed : List String
  removed : List String
deriving DecidableEq, Repr

/-- The `for file in files_shard` loop body of `ZstdCompressor.run`: compress
the file, then, if `remove` is set, call `self.input_folder.rm_file(file)` —
which raises `AttributeError` when the `input_folder` attribute is absent. -/
def ZstdCompressor.runLoop (c : ZstdCompressor) :
    List String → RunTrace → RunTrace × Option PyError
  | [], tr => (tr, none)
  | file :: rest, tr =>
    let tr' : RunTrace := { tr with compressed := tr.compressed ++ [file] }
    if c.remove then
      match c.input_folder with
      | none => (tr', some (.attributeError "ZstdCompressor" "input_folder"))
      | some _ => c.runLoop rest { tr' with removed := tr'.removed ++ [file] }
    else c.runLoop rest tr'

/-- `ZstdCompressor.run`: shards `files_to_process` as
`files_to_process[rank::world_size]` and runs the compression loop over the
shard. -/
def ZstdCompressor.run (c : ZstdCompressor) (rank world_size : Nat) :
    RunTrace × Option PyError :=
  c.runLoop (pySlice c.files_to_process rank world_size) ⟨[], []⟩

/-! ## MultiFastTextClassifierFilter (multi_fasttext_filter.py) -/

/-- Threshold scores from the label configuration.  The numeric type is
irrelevant to the cache behaviour being verified; the float thresholds of the
source are represented as integers. -/
abbrev Score := Int

/-- A loaded fastText model (`fasttext.FastText._FastText`): the claims only
depend on its raw label list (each carrying the `__label__` tag). -/
structure FastTextModel where
  labels : List String
deriving DecidableEq, Repr

/-- External collaborators of `multi_fasttext_filter.py`:
`cached_asset_path_or_download` (url ↦ local model file) and the `_FastText`
constructor (model file ↦ loaded model). -/
structure FTEnv where
  cachedPath : String → String
  loadModel : String → FastTextModel

/-- A `labels` dict entry as passed to `__init__`: either a single
`(label, min_score)` tuple or a list of such tuples. -/
inductive LabelsArg
  /-- a bare `(label, min_score)` tuple (its first component is a `str`) -/
  | single (l : String × Score)
  /-- a list of `(label, min_score)` tuples -/
  | list (ls : List (String × Score))

/-- The `__init__` normalization `if isinstance(self.labels[name][0], str):
self.labels[name] = [self.labels[name]]`: a bare tuple is wrapped into a
one-element list. -/
def normalizeLabels : LabelsArg → List (String × Score)
  | .single l => [l]
  | .list ls => ls

/-- `MultiFastTextClassifierFilter`: the attributes assigned in `__init__`.
`model_urls` is an insertion-ordered dict (name ↦ url); `labels` is the
normalized labels dict (name ↦ list of `(label, min_score)`), modelled as a
total function since `__init__` would have raised `KeyError` on a missing
name; `_models` is `None` (`none`) until the first `models` access. -/
structure MultiFastTextClassifierFilter where
  model_urls : List (String × String)
  labels : String → List (String × Score)
  save_labels_in_metadata : Bool
  newline_replacement : String
  filter_mode : String
  _models : Option (List (String × FastTextModel))

/-- `MultiFastTextClassifierFilter.__init__`: stores the arguments, normalizes
each labels entry, and sets `self._models = None`. -/
def MultiFastTextClassifierFilter.init (model_urls : List (String × String))
    (labelsArg : String → LabelsArg) (save : Bool) (nl fm : String) :
    MultiFastTextClassifierFilter :=
  { model_urls := model_urls
    labels := fun name => normalizeLabels (labelsArg name)
    save_labels_in_metadata := save
    newline_replacement := nl
    filter_mode := fm
    _models := none }

/-- The raw-label tag fastText prepends to label names. -/
def labelTag : String := "__label__"

/-- Python's `str.removeprefix` applied to the `__label__` tag
(character-list implementation, equivalent to
`s.removeprefix("__label__")`). -/
def dropTag (s : String) : String :=
  if labelTag.data.isPrefixOf s.data then
    { data := s.data.drop labelTag.data.length }
  else s

/-- `ValueError` raised by `build_model` when a configured label is not
available in the loaded model. -/
inductive FTError
  | valueError (label : String)
deriving DecidableEq, Repr

/-- `build_model` (inner function of the `models` property): download/locate
the model file, load it with `_FastText`, and check every configured label
against the model's available labels, raising `ValueError` on the first label
not offered by the model. -/
def build_model (env : FTEnv) (model_url : String)
    (labels : List (String × Score)) : Except FTError FastTextModel :=
  let model_file := env.cachedPath model_url
  let model := env.loadModel model_file
  let available_labels := model.labels.map dropTag
  match labels.find? (fun l => !(available_labels.contains l.1)) with
  | some l => .error (.valueError l.1)
  | none => .ok model

/-- The `for name, model_url in self.model_urls.items()` loop of the `models`
property: builds each model in turn, storing successful builds into the dict
(`acc`) and recording every `_FastText` construction event (`ev`, by entry
name).  A `ValueError` aborts the loop with the partially filled dict, after
the failing entry's model object was already constructed. -/
def buildModelsLoop (env : FTEnv) (labels : String → List (String × Score)) :
    List (String × String) → List (String × FastTextModel) → List String →
    List (String × FastTextModel) × List String × Option FTError
  | [], acc, ev => (acc, ev, none)
  | (name, url) :: rest, acc, ev =>
    match build_model env url (labels name) with
    | .error e => (acc, ev ++ [name], some e)
    | .ok m => buildModelsLoop env labels rest (acc ++ [(name, m)]) (ev ++ [name])

/-- The `models` property: if `self._models` is `None`, set it to a fresh dict
and fill it by building one model per `model_urls` entry; otherwise return the
cached dict.  Returns the state after the access (the property mutates
`self._models` in place), the returned mapping (or the propagated
`ValueError`), and the list of `_FastText` construction events performed by
this access. -/
def MultiFastTextClassifierFilter.models (env : FTEnv)
    (s : MultiFastTextClassifierFilter) :
    MultiFastTextClassifierFilter ×
      Except FTError (List (String × FastTextModel)) × List String :=
  match s._models with
  | some m => (s, .ok m, [])
  | none =>
    let r := buildModelsLoop env s.labels s.model_urls [] []
    match r.2.2 with
    | some e => ({ s with _models := some r.1 }, .error e, r.2.1)
    | none => ({ s with _models := some r.1 }, .ok r.1, r.2.1)

/-! ## The example workflow (examples/fineweb-tokens-dist-workflow.py) -/

/-- The names defined at module scope of
`examples/fineweb-tokens-dist-workflow.py` by its import statements. -/
def moduleNames : List String :=
  ["PipelineExecutor", "LocalPipelineExecutor", "SlurmPipelineExecutor",
   "JsonlReader", "ParquetReader", "MegatronTokenizer", "MegatronTokenizerMerger"]

/-- The parameters of `process`, bound on entry. -/
def processParams : List String :=
  ["input_folder", "output_folder", "filename", "job_name", "tokenizer", "njobs"]

/-- One statement of the `process` body: the local name it binds (if any), the
names its right-hand side references in evaluation order, and whether it is
one of the final `executor.run()` calls. -/
structure ProcStmt where
  binds : Option String
  refs : List String
  isRunCall : Bool
deriving DecidableEq, Repr

/-- The statements of `process` in source order.  `merge` is the constant
`True`, so the final `if not merge ... else ...` evaluates `merge` and then
calls `executor_3.run()`. -/
def processBody : List ProcStmt :=
  [⟨some "merge", [], false⟩,
   ⟨some "pipeline_1",
     ["ParquetReader", "input_folder", "MegatronTokenizer", "output_folder",
      "filename", "tokenizer", "merge"], false⟩,
   ⟨some "pipeline_2",
     ["DistTokenizerMergerPlanner", "output_folder", "filename"], false⟩,
   ⟨some "pipeline_3",
     ["DistTokenizerMergerExecutor", "output_folder", "filename"], false⟩,
   ⟨some "executor_1",
     ["SlurmPipelineExecutor", "pipeline_1", "job_name", "njobs"], false⟩,
   ⟨some "executor_2",
     ["SlurmPipelineExecutor", "pipeline_2", "job_name", "executor_1"], false⟩,
   ⟨some "executor_3",
     ["SlurmPipelineExecutor", "pipeline_3", "job_name", "njobs", "bjobs",
      "executor_2"], false⟩,
   ⟨none, ["merge", "executor_3"], true⟩]

/-- Executes statements in order under Python name resolution: the first
reference to a name outside the environment raises `NameError` and stops
execution.  Returns the raised name (if any) and how many `executor.run()`
calls were reached. -/
def evalStmts : List String → List ProcStmt → Nat → Option String × Nat
  | _, [], runs => (none, runs)
  | env, st :: rest, runs =>
    match st.refs.find? fun n => !(env.contains n) with
    | some n => (some n, runs)
    | none =>
      evalStmts
        (match st.binds with
         | some b => env ++ [b]
         | none => env)
        rest (if st.isRunCall then runs + 1 else runs)

/-- The result of calling `process`: the name whose resolution raises
`NameError` (if any) and the number of `executor.run()` calls reached. -/
def processEval : Option String × Nat :=
  evalStmts (moduleNames ++ processParams) processBody 0

/-! ## Storage layer and AtomicArtifactWriter

Modelled from the spec: these components of the merge-coordination core are
not present under the repository sources (the example workflow only references
them); they are defined following §4.2, §5 and §6 of the specification. -/

/-- Byte content of a file. -/
abbrev Bytes := List Nat

/-- A storage path. -/
abbrev Path := String

/-- Modelled from the spec: the storage collaborator, the only shared resource
— each path either holds a file with some byte content or is absent. -/
abbrev Storage := Path → Option Bytes

/-- Modelled from the spec: the primitive storage operations used by
AtomicArtifactWriter (open-for-write-temp, streamed appends, the single atomic
rename, best-effort temp deletion). -/
inductive StorageOp
  /-- create (or truncate) the file at `path` with `content` -/
  | write (path : Path) (content : Bytes)
  /-- append `chunk` to the file at `path` -/
  | append (path : Path) (chunk : Bytes)
  /-- atomic rename: move the file at `src` onto `dst` -/
  | rename (src dst : Path)
  /-- best-effort delete of `path` -/
  | delete (path : Path)

/-- The paths an operation can affect. -/
def StorageOp.touches : StorageOp → List Path
  | .write p _ => [p]
  | .append p _ => [p]
  | .rename s d => [s, d]
  | .delete p => [p]

/-- Effect of one storage operation. -/
def applyOp (σ : Storage) : StorageOp → Storage
  | .write p c => fun q => if q = p then some c else σ q
  | .append p c => fun q => if q = p then some (((σ p).getD []) ++ c) else σ q
  | .rename s d => fun q => if q = d then σ s else if q = s then none else σ q
  | .delete p => fun q => if q = p then none else σ q

/-- Effect of a sequence of storage operations, executed left to right. -/
def applyOps (σ : Storage) (ops : List StorageOp) : Storage :=
  ops.foldl applyOp σ

/-- Modelled from the spec: the temporary location colocated with the target's
storage namespace. -/
def tmpPath (target : Path) : Path := target ++ ".tmp"

/-- Modelled from the spec: the outcome of the content producer streamed into
AtomicArtifactWriter — either the complete chunk sequence, or an error after
yielding a prefix of the chunks. -/
inductive ProducerResult
  | ok (chunks : List Bytes)
  | err (chunksBeforeError : List Bytes)

/-- Modelled from the spec: the primitive operation sequence of
`AtomicArtifactWriter.publish(target_path, content_producer)` — create the
temporary file, stream every produced chunk into it, then either perform the
single atomic rename onto `target_path` (producer completed) or best-effort
delete the temporary file (producer errored; no rename happens). -/
def publishOps (target : Path) : ProducerResult → List StorageOp
  | .ok chunks =>
    .write (tmpPath target) [] ::
      (chunks.map fun c => .append (tmpPath target) c) ++
        [.rename (tmpPath target) target]
  | .err chunks =>
    .write (tmpPath target) [] ::
      (chunks.map fun c => .append (tmpPath target) c) ++
        [.delete (tmpPath target)]

/-- Modelled from the spec: the storage state after a full (uninterrupted)
`publish` call. -/
def publish (σ : Storage) (target : Path) (res : ProducerResult) : Storage :=
  applyOps σ (publishOps target res)

/-! ## MergePlan data model and MergePlanner (modelled from the spec, §3/§4.3) -/

/-- Modelled from the spec: one partial output produced by a single upstream
worker — logical stream name, producing rank, storage path and byte size. -/
structure ShardFile where
  stream : String
  rank : Nat
  path : Path
  size : Nat
deriving DecidableEq, Repr

/-- Modelled from the spec: one output target of a merge plan — its identifier
and its ordered source list. -/
structure MergeTarget where
  id : String
  sources : List ShardFile
deriving DecidableEq, Repr

/-- Modelled from the spec: the merge plan — format version plus the mapping
from target identifier to ordered source list. -/
structure MergePlan where
  version : Nat
  targets : List MergeTarget
deriving DecidableEq, Repr

/-- Modelled from the spec: the concatenation order fixed by MergePlanner step
(3) — producing rank ascending, ties broken by path. -/
def shardLE (a b : ShardFile) : Prop :=
  a.rank < b.rank ∨ (a.rank = b.rank ∧ a.path ≤ b.path)

instance : DecidableRel shardLE := fun a b => by
  unfold shardLE; infer_instance

instance : IsTotal ShardFile shardLE where
  total a b := by
    rcases Nat.lt_trichotomy a.rank b.rank with h | h | h
    · exact Or.inl (Or.inl h)
    · rcases le_total a.path b.path with hp | hp
      · exact Or.inl (Or.inr ⟨h, hp⟩)
      · exact Or.inr (Or.inr ⟨h.symm, hp⟩)
    · exact Or.inr (Or.inl h)

instance : IsTrans ShardFile shardLE where
  trans a b c hab hbc := by
    rcases hab with h1 | ⟨h1, hp1⟩
    · rcases hbc with h2 | ⟨h2, _⟩
      · exact Or.inl (h1.trans h2)
      · exact Or.inl (h2 ▸ h1)
    · rcases hbc with h2 | ⟨h2, hp2⟩
      · exact Or.inl (h1 ▸ h2)
      · exact Or.inr ⟨h1.trans h2, hp1.trans hp2⟩

/-- Modelled from the spec: MergePlanner step (2) and (3) for one logical
stream — the discovered shards of that stream, sorted by rank then path. -/
def groupFor (shards : List ShardFile) (s : String) : List ShardFile :=
  List.insertionSort shardLE (shards.filter fun f => decide (f.stream = s))

/-- Modelled from the spec: the distinct logical stream names of the
discovered shards, in a listing-order-independent (sorted) order. -/
def sortedStreams (shards : List ShardFile) : List String :=
  List.insertionSort (· ≤ ·) (shards.map ShardFile.stream).dedup

/-- Modelled from the spec: the deterministic assignment of a rank-sorted
shard list to `T` output targets by contiguous chunks (the spec leaves the
exact packing free as long as it is a deterministic function of the sorted
group): the shard at position `j` of a group of `n` goes to target
`j * T / n`. -/
def chunkAssign (T : Nat) (l : List ShardFile) : List (List ShardFile) :=
  (List.range T).map fun t =>
    (l.enum.filter fun p => decide (p.1 * T / l.length = t)).map Prod.snd

/-- Modelled from the spec: the deterministic name of an output target. -/
def targetId (stream : String) (t : Nat) : String :=
  stream ++ "-" ++ toString t

/-- Modelled from the spec: `DiscoveryError` — no source shards found. -/
inductive PlanError
  | discoveryError
deriving DecidableEq, Repr

/-- Modelled from the spec: the pure planning core of `MergePlanner.plan` with
a caller-specified target count `T` — fail with `DiscoveryError` when no shard
was discovered, otherwise group by stream, sort each group by rank then path,
and cut each sorted group into `T` deterministic contiguous chunks. -/
def planFromListing (T : Nat) (shards : List ShardFile) :
    Except PlanError MergePlan :=
  if shards.isEmpty then .error .discoveryError
  else
    .ok
      { version := 1
        targets :=
          (sortedStreams shards).flatMap fun s =>
            (chunkAssign T (groupFor shards s)).enum.map fun tc =>
              { id := targetId s tc.1, sources := tc.2 } }

/-- Modelled from the spec: human-inspectable serialization of one shard
reference as a `(producing-rank, source-path, byte-size)` tuple. -/
def serializeShard (f : ShardFile) : String :=
  "(" ++ toString f.rank ++ "," ++ f.path ++ "," ++ toString f.size ++ ")"

/-- Modelled from the spec: serialization of one target entry. -/
def serializeTarget (t : MergeTarget) : String :=
  t.id ++ ":[" ++ String.intercalate ";" (t.sources.map serializeShard) ++ "]"

/-- Modelled from the spec: the serialized plan artifact — schema version then
every target entry. -/
def serializePlan (p : MergePlan) : String :=
  "v" ++ toString p.version ++ "|" ++
    String.intercalate "|" (p.targets.map serializeTarget)

/-- Serialization of a planning outcome (errors serialize to themselves). -/
def serializePlanResult : Except PlanError MergePlan → String
  | .error .discoveryError => "DiscoveryError"
  | .ok p => serializePlan p

/-! ## MergeExecutor (modelled from the spec, §4.4) -/

/-- Modelled from the spec: the error taxonomy of the merge phase (§7). -/
inductive MergeError
  | planNotFound
  | schemaMismatch
  | sourceMissing (path : Path)
deriving DecidableEq, Repr

/-- Modelled from the spec: the final path of a target's MergedArtifact,
deterministic from the output location and the target identifier. -/
def finalPath (out : String) (t : MergeTarget) : Path :=
  out ++ "/" ++ t.id

/-- Modelled from the spec: read every source shard of a target in the plan's
order, failing with `SourceMissingError` on the first absent source (before
any write happens). -/
def readSources (σ : Storage) : List ShardFile → Except MergeError (List Bytes)
  | [] => .ok []
  | s :: rest =>
    match σ s.path with
    | none => .error (.sourceMissing s.path)
    | some b => (readSources σ rest).map fun bs => b :: bs

/-- Per-target outcome of one executor pass. -/
inductive TargetOutcome
  | skipped
  | published
  | failed (e : MergeError)
deriving DecidableEq, Repr

/-- Modelled from the spec: MergeExecutor steps (3)–(5) for one owned target —
skip if the MergedArtifact already exists at the final path; otherwise read
every source in plan order and stream-concatenate them into an atomic
publish. -/
def executeTarget (σ : Storage) (out : String) (t : MergeTarget) :
    Storage × TargetOutcome :=
  if (σ (finalPath out t)).isSome then (σ, .skipped)
  else
    match readSources σ t.sources with
    | .error e => (σ, .failed e)
    | .ok chunks => (publish σ (finalPath out t) (.ok chunks), .published)

/-- Modelled from the spec: process every owned target in order; per-target
failures are isolated and do not abort sibling targets. -/
def executeTargets (σ : Storage) (out : String) :
    List MergeTarget → Storage × List TargetOutcome
  | [] => (σ, [])
  | t :: rest =>
    let r := executeTarget σ out t
    let r' := executeTargets r.1 out rest
    (r'.1, r.2 :: r'.2)

/-- Modelled from the spec: loading the persisted plan — `PlanNotFoundError`
when nothing is published at the plan path (the barrier enforcement point),
`SchemaMismatchError` when the stored bytes do not decode.  The decoder for
the serialized plan format is kept as a parameter. -/
def loadPlan (decode : Bytes → Option MergePlan) (σ : Storage)
    (planPath : Path) : Except MergeError MergePlan :=
  match σ planPath with
  | none => .error .planNotFound
  | some bs =>
    match decode bs with
    | none => .error .schemaMismatch
    | some p => .ok p

/-- Modelled from the spec: `MergeExecutor.execute(plan, rank, world_size)` —
load the plan (failing with `PlanNotFoundError` before the planner has
published, performing no writes), claim this rank's disjoint target subset via
the round-robin WorkShardAssigner, and process each owned target. -/
def executeRun (decode : Bytes → Option MergePlan) (σ : Storage)
    (planPath : Path) (out : String) (rank world_size : Nat) :
    Storage × Except MergeError (List TargetOutcome) :=
  match loadPlan decode σ planPath with
  | .error e => (σ, .error e)
  | .ok plan =>
    let r := executeTargets σ out (pySlice plan.targets rank world_size)
    (r.1, .ok r.2)

/-- How a run-1 per-target outcome reappears in an immediately repeated run:
published targets are skipped, everything else is unchanged. -/
def TargetOutcome.onRerun : TargetOutcome → TargetOutcome
  | .published => .skipped
  | o => o

/-! ## StageDependencyGraph (modelled from the spec, §4.5) -/

/-- Modelled from the spec: the per-stage state machine
`PENDING → RUNNING → {SUCCEEDED, FAILED}`. -/
inductive StageState
  | pending
  | running
  | succeeded
  | failed
deriving DecidableEq, Repr

/-- The state of a linear stage chain (such as the example workflow's
tokenize → plan-merge → execute-merge chain, declared by the `depends=`
arguments of `executor_2` and `executor_3`), one entry per stage. -/
abbrev ChainState := List StageState

/-- Modelled from the spec: a stage may start only when it is pending and its
predecessor in the chain (if any) has reported success. -/
def canStart (sts : ChainState) (k : Nat) : Prop :=
  sts[k]? = some .pending ∧ (k = 0 ∨ sts[k - 1]? = some .succeeded)

/-- Modelled from the spec: one scheduler step — start a startable stage, or
let a running stage terminate with success or failure. -/
inductive StageStep : ChainState → ChainState → Prop
  | start (sts : ChainState) (k : Nat) (h : canStart sts k) :
      StageStep sts (sts.set k .running)
  | finish (sts : ChainState) (k : Nat) (h : sts[k]? = some .running)
      (res : StageState) (hres : res = .succeeded ∨ res = .failed) :
      StageStep sts (sts.set k res)

/-- Chain states reachable from the all-pending initial state. -/
inductive ReachableChain : ChainState → Prop
  | init (n : Nat) : ReachableChain (List.replicate n .pending)
  | step {s s' : ChainState} : ReachableChain s → StageStep s s' →
      ReachableChain s'

/-! ## Helper lemmas about the round-robin slice -/

lemma stride_mem_iff {W r i : Nat} (hr : r < W) :
    (r ≤ i ∧ (i - r) % W = 0) ↔ i % W = r := by
  constructor
  · rintro ⟨hle, hmod⟩
    obtain ⟨k, hk⟩ := Nat.dvd_of_mod_eq_zero hmod
    have hi : i = W * k + r := by omega
    rw [hi, Nat.mul_add_mod, Nat.mod_eq_of_lt hr]
  · intro h
    have h1 : W * (i / W) + i % W = i := Nat.div_add_mod i W
    refine ⟨by omega, ?_⟩
    have h2 : i - r = W * (i / W) := by omega
    rw [h2, Nat.mul_mod_right]

lemma pySlice_eq_strideIndices (l : List α) {W r : Nat} (hr : r < W) :
    pySlice l r W = (strideIndices l.length W r).filterMap fun i => l[i]? := by
  unfold pySlice strideIndices
  congr 1
  apply List.filter_congr
  intro i _
  exact decide_eq_decide.mpr (stride_mem_iff hr)

lemma filterMap_getElem_range (l : List α) :
    ((List.range l.length).filterMap fun i => l[i]?) = l := by
  induction l with
  | nil => rfl
  | cons a l ih =>
    rw [List.length_cons, List.range_succ_eq_map, List.filterMap_cons,
      List.filterMap_map]
    have h0 : (a :: l)[0]? = some a := List.getElem?_cons_zero
    rw [h0]
    have hf : ((fun i => (a :: l)[i]?) ∘ Nat.succ) = fun i => l[i]? := by
      funext i
      exact List.getElem?_cons_succ
    rw [hf, ih]

lemma count_filter_eq [DecidableEq α] (p : α → Bool) (a : α) (l : List α) :
    (l.filter p).count a = if p a then l.count a else 0 := by
  by_cases h : p a
  · rw [if_pos h, List.count_filter h]
  · rw [if_neg h, List.count_eq_zero]
    intro hmem
    exact h (List.of_mem_filter hmem)

lemma count_range_eq (a : Nat) : ∀ n, (List.range n).count a =
    if a < n then 1 else 0 := by
  intro n
  induction n with
  | zero => simp
  | succ n ih =>
    rw [List.range_succ, List.count_append, ih]
    by_cases h : a = n
    · subst h
      simp
    · have h1 : List.count a [n] = 0 := by
        rw [List.count_eq_zero]
        simp [h]
      rw [h1]
      by_cases h2 : a < n
      · rw [if_pos h2, if_pos (by omega)]
      · rw [if_neg h2, if_neg (by omega)]

lemma sum_map_ite_eq (c : Nat) : ∀ (W j : Nat), j < W →
    ((List.range W).map fun r => if j = r then c else 0).sum = c := by
  intro W
  induction W with
  | zero => intro j hj; omega
  | succ W ih =>
    intro j hj
    rw [List.range_succ, List.map_append, List.sum_append]
    by_cases h : j < W
    · rw [ih j h]
      have hne : (if j = W then c else 0) = 0 := if_neg (by omega)
      simp [hne]
    · have hjW : j = W := by omega
      subst hjW
      have h0 : ((List.range j).map fun r => if j = r then c else 0).sum = 0 := by
        apply List.sum_eq_zero
        intro x hx
        simp only [List.mem_map] at hx
        obtain ⟨r, hr, hxr⟩ := hx
        rw [← hxr, if_neg]
        have := List.mem_range.mp hr
        omega
      simp [h0]

lemma strideIndices_flatMap_perm (N W : Nat) (hW : 0 < W) :
    ((List.range W).flatMap fun r => strideIndices N W r).Perm
      (List.range N) := by
  rw [List.perm_iff_count]
  intro a
  rw [List.count_flatMap]
  have hmap : List.map (List.count a ∘ fun r => strideIndices N W r)
        (List.range W)
      = (List.range W).map fun r =>
          if a % W = r then (if a < N then 1 else 0) else 0 := by
    apply List.map_congr_left
    intro r _
    simp only [Function.comp]
    unfold strideIndices
    rw [count_filter_eq, count_range_eq]
    by_cases h : a % W = r <;> simp [h]
  rw [hmap, sum_map_ite_eq _ W (a % W) (Nat.mod_lt a hW), count_range_eq]

/-! ## C7 / C9: ZstdCompressor.run behaviour -/

/-- **C7** — Empty-shard no-op: whenever rank `r`'s slice
`files_to_process[r::W]` is empty (in particular whenever fewer files than
ranks exist and `r` is beyond the file count), `ZstdCompressor.run` completes
successfully: it compresses no file, removes no file, and raises no error. -/
theorem zstd_empty_shard_noop (c : ZstdCompressor) (rank world_size : Nat) :
    (pySlice c.files_to_process rank world_size = [] →
      c.run rank world_size = (⟨[], []⟩, none)) ∧
    (c.files_to_process.length ≤ rank →
      pySlice c.files_to_process rank world_size = []) := by
  constructor
  · intro h
    unfold ZstdCompressor.run
    rw [h]
    rfl
  · intro h
    unfold pySlice
    have hnil : (List.range c.files_to_process.length).filter
        (fun i => decide (rank ≤ i ∧ (i - rank) % world_size = 0)) = [] := by
      rw [List.filter_eq_nil_iff]
      intro a ha
      have := List.mem_range.mp ha
      simp only [decide_eq_true_eq, not_and]
      omega
    rw [hnil]
    rfl

theorem zstd_empty_shard_noop_witness :
    (ZstdCompressor.init ["a"] true true 1 "zstd").run 1 2 = (⟨[], []⟩, none) :=
  (zstd_empty_shard_noop (ZstdCompressor.init ["a"] true true 1 "zstd") 1 2).1
    (by decide)

/-- **C9** — `__init__` never assigns an `input_folder` attribute, so with
`remove=True` and a nonempty shard, `run` compresses the first file of the
shard, then raises `AttributeError` on `self.input_folder`: the file is never
removed and the remaining files of the rank are never processed. -/
theorem zstd_missing_input_folder (resolved_files : List String)
    (progress : Bool) (nthreads : Nat) (zstd_bin : String)
    (rank world_size : Nat) (f : String) (rest : List String)
    (hshard : pySlice resolved_files rank world_size = f :: rest) :
    (ZstdCompressor.init resolved_files progress true nthreads
        zstd_bin).input_folder = none ∧
    (ZstdCompressor.init resolved_files progress true nthreads zstd_bin).run
        rank world_size
      = (⟨[f], []⟩, some (.attributeError "ZstdCompressor" "input_folder")) := by
  refine ⟨rfl, ?_⟩
  unfold ZstdCompressor.run
  simp only [ZstdCompressor.init]
  rw [hshard]
  rfl

theorem zstd_missing_input_folder_witness :
    (ZstdCompressor.init ["a", "b"] true true 1 "zstd").run 0 1
      = (⟨["a"], []⟩,
          some (.attributeError "ZstdCompressor" "input_folder")) :=
  (zstd_missing_input_folder ["a", "b"] true 1 "zstd" 0 1 "a" ["b"]
    (by decide)).2

/-! ## C10: the example workflow raises NameError -/

/-- **C10** — Calling `process` in
`examples/fineweb-tokens-dist-workflow.py` raises `NameError` at the
`pipeline_2` assignment (the first reference to the undefined
`DistTokenizerMergerPlanner`) before any `executor.run()` call is reached;
`DistTokenizerMergerExecutor` and `bjobs` are likewise undefined. -/
theorem process_raises_name_error :
    processEval = (some "DistTokenizerMergerPlanner", 0) ∧
    "DistTokenizerMergerPlanner" ∉ moduleNames ++ processParams ∧
    "DistTokenizerMergerExecutor" ∉ moduleNames ++ processParams ∧
    "bjobs" ∉ moduleNames ++ processParams := by
  decide

/-! ## C1: partition completeness of the round-robin work assigner -/

/-- **C1** — Partition completeness of the round-robin work assigner: for
every ordered item list and every world size `W ≥ 1`, (i) the concatenation
of the per-rank slices `items[r::W]` over `r = 0..W-1` is a permutation of
the original list (every item exactly once); (ii) rank `r`'s slice consists
precisely of the items at indices `i` with `i % W = r`, in original order;
(iii) every index `i` belongs to the index set of rank `i % W`; (iv) the
per-rank index sets are pairwise disjoint. -/
theorem workshard_partition (l : List α) (W : Nat) (hW : 0 < W) :
    (((List.range W).flatMap fun r => pySlice l r W).Perm l) ∧
    (∀ r, r < W →
      pySlice l r W = (strideIndices l.length W r).filterMap fun i => l[i]?) ∧
    (∀ i, i < l.length → i ∈ strideIndices l.length W (i % W)) ∧
    (∀ r₁ r₂, r₁ < W → r₂ < W → r₁ ≠ r₂ →
      (strideIndices l.length W r₁).Disjoint (strideIndices l.length W r₂)) := by
  refine ⟨?_, fun r hr => pySlice_eq_strideIndices l hr, ?_, ?_⟩
  · have hcongr : ((List.range W).flatMap fun r => pySlice l r W)
        = (List.range W).flatMap fun r =>
            (strideIndices l.length W r).filterMap fun i => l[i]? := by
      apply List.flatMap_congr
      intro r hr
      exact pySlice_eq_strideIndices l (List.mem_range.mp hr)
    rw [hcongr, ← List.filterMap_flatMap]
    have hperm := strideIndices_flatMap_perm l.length W hW
    have := hperm.filterMap fun i => l[i]?
    rwa [filterMap_getElem_range l] at this
  · intro i hi
    unfold strideIndices
    rw [List.mem_filter]
    exact ⟨List.mem_range.mpr hi, by simp⟩
  · intro r₁ r₂ _ _ hne
    intro a ha₁ ha₂
    unfold strideIndices at ha₁ ha₂
    rw [List.mem_filter] at ha₁ ha₂
    have h₁ := of_decide_eq_true ha₁.2
    have h₂ := of_decide_eq_true ha₂.2
    exact hne (h₁ ▸ h₂ ▸ rfl)

theorem workshard_partition_witness :
    (((List.range 2).flatMap fun r => pySlice [10, 20, 30] r 2).Perm
        [10, 20, 30]) ∧
    pySlice ([10, 20, 30] : List Nat) 0 2 = [10, 30] ∧
    pySlice ([10, 20, 30] : List Nat) 1 2 = [20] :=
  ⟨(workshard_partition [10, 20, 30] 2 (by decide)).1, by decide, by decide⟩

/-! ## C8: the lazily built per-process model cache -/

lemma buildModelsLoop_ok_events (env : FTEnv)
    (labels : String → List (String × Score)) :
    ∀ (urls : List (String × String)) (acc : List (String × FastTextModel))
      (ev : List String),
      (buildModelsLoop env labels urls acc ev).2.2 = none →
      (buildModelsLoop env labels urls acc ev).2.1 = ev ++ urls.map Prod.fst := by
  intro urls
  induction urls with
  | nil =>
    intro acc ev _
    simp [buildModelsLoop]
  | cons p rest ih =>
    intro acc ev h
    obtain ⟨name, url⟩ := p
    simp only [buildModelsLoop] at h ⊢
    cases hb : build_model env url (labels name) with
    | error e =>
      rw [hb] at h
      exact absurd h (by simp)
    | ok m =>
      rw [hb] at h
      have h' : (buildModelsLoop env labels rest (acc ++ [(name, m)])
          (ev ++ [name])).2.2 = none := h
      show (buildModelsLoop env labels rest (acc ++ [(name, m)])
          (ev ++ [name])).2.1 = _
      rw [ih _ _ h']
      simp

/-- **C8** — The `models` property builds each fastText model at most once per
process lifetime: when the first access succeeds, it performs exactly one
`build_model` per entry of `model_urls` (in dict order), stores the resulting
mapping in `self._models`, and every subsequent access returns the very same
cached mapping from the unchanged state with no further construction. -/
theorem models_cached (env : FTEnv) (model_urls : List (String × String))
    (labelsArg : String → LabelsArg) (save : Bool) (nl fm : String)
    (M : List (String × FastTextModel))
    (hok : ((MultiFastTextClassifierFilter.init model_urls labelsArg save nl
        fm).models env).2.1 = .ok M) :
    ((MultiFastTextClassifierFilter.init model_urls labelsArg save nl
        fm).models env).2.2 = model_urls.map Prod.fst ∧
    ((MultiFastTextClassifierFilter.init model_urls labelsArg save nl
        fm).models env).1._models = some M ∧
    (((MultiFastTextClassifierFilter.init model_urls labelsArg save nl
          fm).models env).1.models env)
      = (((MultiFastTextClassifierFilter.init model_urls labelsArg save nl
            fm).models env).1, .ok M, []) := by
  simp only [MultiFastTextClassifierFilter.models,
    MultiFastTextClassifierFilter.init] at hok ⊢
  cases herr : (buildModelsLoop env
      (fun name => normalizeLabels (labelsArg name)) model_urls [] []).2.2 with
  | some e =>
    rw [herr] at hok
    simp at hok
  | none =>
    rw [herr] at hok ⊢
    simp only [Except.ok.injEq] at hok
    have hev := buildModelsLoop_ok_events env
      (fun name => normalizeLabels (labelsArg name)) model_urls [] [] herr
    simp only [List.nil_append] at hev
    refine ⟨hev, by rw [hok], ?_⟩
    simp [MultiFastTextClassifierFilter.models, hok]

theorem models_cached_witness :
    ((MultiFastTextClassifierFilter.init [("m", "u")]
        (fun _ => .single ("math", 1)) true "" "doc").models
          ⟨fun u => u, fun _ => ⟨["__label__math"]⟩⟩).2.2 = ["m"] ∧
    ((MultiFastTextClassifierFilter.init [("m", "u")]
        (fun _ => .single ("math", 1)) true "" "doc").models
          ⟨fun u => u, fun _ => ⟨["__label__math"]⟩⟩).1._models
      = some [("m", ⟨["__label__math"]⟩)] ∧
    (((MultiFastTextClassifierFilter.init [("m", "u")]
          (fun _ => .single ("math", 1)) true "" "doc").models
            ⟨fun u => u, fun _ => ⟨["__label__math"]⟩⟩).1.models
        ⟨fun u => u, fun _ => ⟨["__label__math"]⟩⟩)
      = (((MultiFastTextClassifierFilter.init [("m", "u")]
            (fun _ => .single ("math", 1)) true "" "doc").models
              ⟨fun u => u, fun _ => ⟨["__label__math"]⟩⟩).1,
          .ok [("m", ⟨["__label__math"]⟩)], []) :=
  models_cached ⟨fun u => u, fun _ => ⟨["__label__math"]⟩⟩ [("m", "u")]
    (fun _ => .single ("math", 1)) true "" "doc"
    [("m", ⟨["__label__math"]⟩)] (by rfl)

/-! ## Storage lemmas and C5: atomic publication -/

lemma applyOp_untouched (σ : Storage) (op : StorageOp) (q : Path)
    (h : q ∉ op.touches) : applyOp σ op q = σ q := by
  cases op with
  | write p c =>
    simp only [StorageOp.touches, List.mem_singleton] at h
    simp [applyOp, h]
  | append p c =>
    simp only [StorageOp.touches, List.mem_singleton] at h
    simp [applyOp, h]
  | rename s d =>
    simp only [StorageOp.touches, List.mem_cons, List.mem_singleton] at h
    push_neg at h
    simp [applyOp, h.1, h.2]
  | delete p =>
    simp only [StorageOp.touches, List.mem_singleton] at h
    simp [applyOp, h]

lemma applyOps_untouched : ∀ (ops : List StorageOp) (σ : Storage) (q : Path),
    (∀ op ∈ ops, q ∉ op.touches) → applyOps σ ops q = σ q := by
  intro ops
  induction ops with
  | nil => intro σ q _; rfl
  | cons op rest ih =>
    intro σ q h
    show applyOps (applyOp σ op) rest q = σ q
    rw [ih _ _ (fun o ho => h o (List.mem_cons_of_mem _ ho)),
      applyOp_untouched σ op q (h op (List.mem_cons_self _ _))]

lemma tmpPath_ne (target : Path) : tmpPath target ≠ target := by
  intro h
  have hlen := congrArg String.length h
  rw [tmpPath, String.length_append] at hlen
  have h4 : (".tmp" : String).length = 4 := by decide
  omega

lemma applyOps_append_chunks (p : Path) (chunks : List Bytes) :
    ∀ (σ : Storage) (acc : Bytes), σ p = some acc →
      applyOps σ (chunks.map fun c => .append p c) p
        = some (acc ++ chunks.flatten) := by
  induction chunks with
  | nil =>
    intro σ acc h
    simpa [applyOps] using h
  | cons c rest ih =>
    intro σ acc h
    show applyOps (applyOp σ (.append p c))
      (rest.map fun c => .append p c) p = _
    have hstep : (applyOp σ (.append p c)) p = some (acc ++ c) := by
      simp [applyOp, h]
    rw [ih _ _ hstep]
    simp

/-- Pointwise description of a completed atomic publish: the target holds the
full concatenated content, the temporary path is gone, and every other path
is untouched. -/
lemma publish_ok_eval (σ : Storage) (target : Path) (chunks : List Bytes)
    (q : Path) :
    publish σ target (.ok chunks) q =
      if q = target then some chunks.flatten
      else if q = tmpPath target then none else σ q := by
  unfold publish publishOps applyOps
  show List.foldl applyOp σ
      (StorageOp.write (tmpPath target) [] ::
        ((chunks.map fun c => StorageOp.append (tmpPath target) c) ++
          [StorageOp.rename (tmpPath target) target])) q = _
  rw [List.foldl_cons, List.foldl_append]
  have h₁tmp : applyOp σ (.write (tmpPath target) []) (tmpPath target)
      = some [] := by simp [applyOp]
  have h₂tmp : List.foldl applyOp (applyOp σ (.write (tmpPath target) []))
      (chunks.map fun c => .append (tmpPath target) c) (tmpPath target)
      = some chunks.flatten := by
    have := applyOps_append_chunks (tmpPath target) chunks _ [] h₁tmp
    simpa [applyOps] using this
  have h₂other : ∀ q', q' ≠ tmpPath target →
      List.foldl applyOp (applyOp σ (.write (tmpPath target) []))
        (chunks.map fun c => .append (tmpPath target) c) q' = σ q' := by
    intro q' hq'
    have huntouched : applyOps (applyOp σ (.write (tmpPath target) []))
        (chunks.map fun c => .append (tmpPath target) c) q'
        = applyOp σ (.write (tmpPath target) []) q' := by
      apply applyOps_untouched
      intro op hop
      simp only [List.mem_map] at hop
      obtain ⟨c, _, rfl⟩ := hop
      simp [StorageOp.touches, hq']
    rw [show List.foldl applyOp (applyOp σ (.write (tmpPath target) []))
        (chunks.map fun c => .append (tmpPath target) c) q'
      = applyOps (applyOp σ (.write (tmpPath target) []))
        (chunks.map fun c => .append (tmpPath target) c) q' from rfl]
    rw [huntouched]
    simp [applyOp, hq']
  rw [List.foldl_cons]
  show applyOp (List.foldl applyOp (applyOp σ (.write (tmpPath target) []))
      (chunks.map fun c => StorageOp.append (tmpPath target) c))
    (.rename (tmpPath target) target) q = _
  rw [show ∀ (τ : Storage), applyOp τ (.rename (tmpPath target) target) q
      = if q = target then τ (tmpPath target)
        else if q = tmpPath target then none else τ q from fun τ => rfl]
  by_cases hqt : q = target
  · rw [if_pos hqt, if_pos hqt, h₂tmp]
  · rw [if_neg hqt, if_neg hqt]
    by_cases hqm : q = tmpPath target
    · rw [if_pos hqm, if_pos hqm]
    · rw [if_neg hqm, if_neg hqm, h₂other q hqm]

/-- **C5** — Atomic publication: (i) after any strict prefix of the publish
operation sequence (a crash before the final rename) the target path is
unchanged — in particular still absent if it was absent; (ii) a producer
error leaves the target unchanged; (iii) a completed publish installs exactly
the full concatenated content; (iv) retrying the publish after any crashed
prefix still produces the complete artifact. -/
theorem atomic_publication (σ : Storage) (target : Path)
    (chunks : List Bytes) :
    (∀ n, n < (publishOps target (.ok chunks)).length →
      applyOps σ ((publishOps target (.ok chunks)).take n) target
        = σ target) ∧
    (∀ pre, publish σ target (.err pre) target = σ target) ∧
    publish σ target (.ok chunks) target = some chunks.flatten ∧
    (∀ n, publish (applyOps σ ((publishOps target (.ok chunks)).take n))
        target (.ok chunks) target = some chunks.flatten) := by
  have hfront : ∀ op ∈ (.write (tmpPath target) [] ::
      (chunks.map fun c => StorageOp.append (tmpPath target) c)),
      target ∉ op.touches := by
    intro op hop
    rcases List.mem_cons.mp hop with rfl | hmem
    · simp [StorageOp.touches]
      exact fun h => tmpPath_ne target h.symm
    · simp only [List.mem_map] at hmem
      obtain ⟨c, _, rfl⟩ := hmem
      simp [StorageOp.touches]
      exact fun h => tmpPath_ne target h.symm
  refine ⟨?_, ?_, ?_, ?_⟩
  · intro n hn
    apply applyOps_untouched
    intro op hop
    have hn' : n ≤ (.write (tmpPath target) [] ::
        (chunks.map fun c => StorageOp.append (tmpPath target) c)).length := by
      unfold publishOps at hn
      rw [List.length_append] at hn
      simpa using Nat.lt_succ_iff.mp (by simpa using hn)
    have : (publishOps target (.ok chunks)).take n
        = (.write (tmpPath target) [] ::
            (chunks.map fun c => StorageOp.append (tmpPath target) c)).take n := by
      unfold publishOps
      exact List.take_append_of_le_length hn'
    rw [this] at hop
    exact hfront op (List.mem_of_mem_take hop)
  · intro pre
    apply applyOps_untouched
    intro op hop
    unfold publishOps at hop
    rcases List.mem_cons.mp hop with rfl | hmem
    · simp [StorageOp.touches]
      exact fun h => tmpPath_ne target h.symm
    · rcases List.mem_append.mp hmem with hmem' | hmem'
      · simp only [List.mem_map] at hmem'
        obtain ⟨c, _, rfl⟩ := hmem'
        simp [StorageOp.touches]
        exact fun h => tmpPath_ne target h.symm
      · rw [List.mem_singleton] at hmem'
        subst hmem'
        simp [StorageOp.touches]
        exact fun h => tmpPath_ne target h.symm
  · rw [publish_ok_eval]
    simp
  · intro n
    rw [publish_ok_eval]
    simp

theorem atomic_publication_witness :
    applyOps (fun _ => none)
        ((publishOps "out/file" (.ok [[1], [2]])).take 2) "out/file"
      = (fun _ => (none : Option Bytes)) "out/file" ∧
    publish (fun _ => none) "out/file" (.err [[1]]) "out/file"
      = (fun _ => (none : Option Bytes)) "out/file" ∧
    publish (fun _ => none) "out/file" (.ok [[1], [2]]) "out/file"
      = some [1, 2] ∧
    publish (applyOps (fun _ => none)
        ((publishOps "out/file" (.ok [[1], [2]])).take 2)) "out/file"
        (.ok [[1], [2]]) "out/file"
      = some [1, 2] := by
  have h := atomic_publication (fun _ => none) "out/file" [[1], [2]]
  refine ⟨h.1 2 (by decide), h.2.1 [[1]], ?_, ?_⟩
  · have := h.2.2.1
    simpa using this
  · have := h.2.2.2 2
    simpa using this

/-! ## C2: order preservation of the merge executor -/

/-- **C2** — Order preservation: for a target whose plan lists the sources
`[S0, S1, S2]` with known byte contents, the published MergedArtifact's bytes
are the exact concatenation `b0 ++ b1 ++ b2` in the plan-specified order — no
re-sorting, no deduplication. -/
theorem order_preservation (σ : Storage) (out : String) (t : MergeTarget)
    (S0 S1 S2 : ShardFile) (b0 b1 b2 : Bytes)
    (hsrc : t.sources = [S0, S1, S2])
    (h0 : σ S0.path = some b0) (h1 : σ S1.path = some b1)
    (h2 : σ S2.path = some b2)
    (habsent : σ (finalPath out t) = none) :
    (executeTarget σ out t).2 = .published ∧
    (executeTarget σ out t).1 (finalPath out t) = some (b0 ++ b1 ++ b2) := by
  have hread : readSources σ t.sources = .ok [b0, b1, b2] := by
    rw [hsrc]
    simp [readSources, h0, h1, h2, Except.map]
  have hexec : executeTarget σ out t
      = (publish σ (finalPath out t) (.ok [b0, b1, b2]), .published) := by
    unfold executeTarget
    rw [habsent, hread]
    rfl
  rw [hexec]
  refine ⟨rfl, ?_⟩
  show publish σ (finalPath out t) (.ok [b0, b1, b2]) (finalPath out t)
    = some (b0 ++ b1 ++ b2)
  rw [publish_ok_eval, if_pos rfl]
  simp

theorem order_preservation_witness :
    (executeTarget
        (fun p => if p = "a" then some [1] else if p = "b" then some [2]
          else if p = "c" then some [3] else none)
        "out" ⟨"t", [⟨"s", 0, "a", 1⟩, ⟨"s", 1, "b", 1⟩, ⟨"s", 2, "c", 1⟩]⟩).2
      = .published ∧
    (executeTarget
        (fun p => if p = "a" then some [1] else if p = "b" then some [2]
          else if p = "c" then some [3] else none)
        "out" ⟨"t", [⟨"s", 0, "a", 1⟩, ⟨"s", 1, "b", 1⟩, ⟨"s", 2, "c", 1⟩]⟩).1
        (finalPath "out" ⟨"t", [⟨"s", 0, "a", 1⟩, ⟨"s", 1, "b", 1⟩,
          ⟨"s", 2, "c", 1⟩]⟩)
      = some ([1] ++ [2] ++ [3]) :=
  order_preservation
    (fun p => if p = "a" then some [1] else if p = "b" then some [2]
      else if p = "c" then some [3] else none)
    "out" ⟨"t", [⟨"s", 0, "a", 1⟩, ⟨"s", 1, "b", 1⟩, ⟨"s", 2, "c", 1⟩]⟩
    ⟨"s", 0, "a", 1⟩ ⟨"s", 1, "b", 1⟩ ⟨"s", 2, "c", 1⟩ [1] [2] [3]
    rfl (by decide) (by decide) (by decide) (by decide)

/-! ## C6: barrier enforcement -/

lemma length_of_getElem?_eq_some {l : List α} {i : Nat} {a : α}
    (h : l[i]? = some a) : i < l.length :=
  (List.getElem?_eq_some.mp h).1

/-- **C6** — Barrier enforcement: (i) in every chain state reachable under
the stage scheduler (such as the example workflow's tokenize → plan-merge →
execute-merge chain declared via `depends=`), a stage has begun (left
`PENDING`) only if its predecessor has reported success; (ii) a MergeExecutor
invoked before the planner has published a plan fails with
`PlanNotFoundError` and performs no writes at all (the storage is returned
unchanged). -/
theorem barrier_enforcement :
    (∀ s, ReachableChain s → ∀ k v, s[k + 1]? = some v → v ≠ .pending →
      s[k]? = some .succeeded) ∧
    (∀ (decode : Bytes → Option MergePlan) (σ : Storage) (planPath : Path)
        (out : String) (rank world_size : Nat), σ planPath = none →
      executeRun decode σ planPath out rank world_size
        = (σ, .error .planNotFound)) := by
  constructor
  · intro s hs
    induction hs with
    | init n =>
      intro k v hv hvp
      rw [List.getElem?_replicate] at hv
      by_cases h : k + 1 < n
      · rw [if_pos h] at hv
        exact absurd (Option.some.inj hv).symm hvp
      · rw [if_neg h] at hv
        exact absurd hv (by simp)
    | step _ hstep ih =>
      cases hstep with
      | start k' hk' =>
        intro k v hv hvp
        by_cases hk : k' = k + 1
        · subst hk
          have hpred := hk'.2.resolve_left (by omega)
          simp only [Nat.add_sub_cancel] at hpred
          rw [List.getElem?_set_ne (by omega)]
          exact hpred
        · rw [List.getElem?_set_ne hk] at hv
          have hsucc := ih k v hv hvp
          by_cases hkk : k' = k
          · subst hkk
            rw [hk'.1] at hsucc
            exact absurd (Option.some.inj hsucc) (by simp)
          · rw [List.getElem?_set_ne hkk]
            exact hsucc
      | finish k' hrun res hres =>
        intro k v hv hvp
        by_cases hk : k' = k + 1
        · subst hk
          have hsucc := ih k .running hrun (by simp)
          rw [List.getElem?_set_ne (by omega)]
          exact hsucc
        · rw [List.getElem?_set_ne hk] at hv
          have hsucc := ih k v hv hvp
          by_cases hkk : k' = k
          · subst hkk
            rw [hrun] at hsucc
            exact absurd (Option.some.inj hsucc) (by simp)
          · rw [List.getElem?_set_ne hkk]
            exact hsucc
  · intro decode σ planPath out rank world_size h
    unfold executeRun loadPlan
    rw [h]

theorem barrier_enforcement_witness :
    ([StageState.succeeded, .running, .pending][0]? = some .succeeded) ∧
    executeRun (fun _ => none) (fun _ => none) "plan/plan.json" "out" 0 1
      = ((fun _ => none : Storage), .error .planNotFound) := by
  have hreach : ReachableChain [StageState.succeeded, .running, .pending] :=
    .step (.step (.step (.init 3) (.start _ 0 ⟨rfl, Or.inl rfl⟩))
        (.finish _ 0 rfl .succeeded (Or.inl rfl)))
      (.start _ 1 ⟨rfl, Or.inr rfl⟩)
  exact ⟨barrier_enforcement.1 [.succeeded, .running, .pending] hreach 0
      .running rfl (by simp),
    barrier_enforcement.2 (fun _ => none) (fun _ => none) "plan/plan.json"
      "out" 0 1 rfl⟩

/-! ## C3: plan determinism -/

lemma shardLE_refl (a : ShardFile) : shardLE a a := Or.inr ⟨rfl, le_refl _⟩

lemma shardLE_antisymm_on {a b : ShardFile} (hab : shardLE a b)
    (hba : shardLE b a) : a.rank = b.rank ∧ a.path = b.path := by
  rcases hab with h1 | ⟨h1, hp1⟩ <;> rcases hba with h2 | ⟨h2, hp2⟩
  · omega
  · omega
  · omega
  · exact ⟨h1, le_antisymm hp1 hp2⟩

/-- Two rank-then-path sorted lists that are permutations of each other and
have pairwise distinct paths are equal (the tie-breaking by path pins the
order even though two distinct shards may share a rank). -/
lemma sorted_perm_eq_of_nodup_paths :
    ∀ (l₁ l₂ : List ShardFile), l₁.Perm l₂ → l₁.Sorted shardLE →
      l₂.Sorted shardLE → (l₁.map ShardFile.path).Nodup → l₁ = l₂ := by
  intro l₁
  induction l₁ with
  | nil =>
    intro l₂ hp _ _ _
    exact (hp.symm.eq_nil).symm
  | cons a l₁ ih =>
    intro l₂ hp hs₁ hs₂ hn
    rw [List.map_cons] at hn
    cases l₂ with
    | nil => exact absurd hp.eq_nil (by simp)
    | cons b l₂' =>
      have hb_mem : b ∈ a :: l₁ := hp.symm.subset (List.mem_cons_self b l₂')
      have ha_mem : a ∈ b :: l₂' := hp.subset (List.mem_cons_self a l₁)
      have hs₁' := List.sorted_cons.mp hs₁
      have hs₂' := List.sorted_cons.mp hs₂
      have hab : shardLE a b := by
        rcases List.mem_cons.mp hb_mem with h | h
        · rw [h]
          exact shardLE_refl a
        · exact hs₁'.1 b h
      have hba : shardLE b a := by
        rcases List.mem_cons.mp ha_mem with h | h
        · rw [h]
          exact shardLE_refl b
        · exact hs₂'.1 a h
      have heq : a = b := by
        rcases List.mem_cons.mp hb_mem with h | h
        · exact h.symm
        · exfalso
          have hpath : b.path = a.path := (shardLE_antisymm_on hab hba).2.symm
          have hmem : a.path ∈ l₁.map ShardFile.path :=
            List.mem_map.mpr ⟨b, h, hpath⟩
          exact (List.nodup_cons.mp hn).1 hmem
      subst heq
      rw [ih l₂' hp.cons_inv hs₁'.2 hs₂'.2 (List.nodup_cons.mp hn).2]

lemma groupFor_perm_eq (l₁ l₂ : List ShardFile) (hp : l₁.Perm l₂)
    (hn : (l₁.map ShardFile.path).Nodup) (s : String) :
    groupFor l₁ s = groupFor l₂ s := by
  unfold groupFor
  apply sorted_perm_eq_of_nodup_paths
  · exact (List.perm_insertionSort _ _).trans
      ((hp.filter _).trans (List.perm_insertionSort _ _).symm)
  · exact List.sorted_insertionSort shardLE _
  · exact List.sorted_insertionSort shardLE _
  · have h1 : ((l₁.filter fun f => decide (f.stream = s)).map
        ShardFile.path).Nodup :=
      List.Nodup.sublist
        (List.Sublist.map ShardFile.path (List.filter_sublist l₁)) hn
    exact (((List.perm_insertionSort shardLE
      (l₁.filter fun f => decide (f.stream = s))).map
        ShardFile.path).nodup_iff).mpr h1

lemma sortedStreams_perm_eq (l₁ l₂ : List ShardFile) (hp : l₁.Perm l₂) :
    sortedStreams l₁ = sortedStreams l₂ := by
  unfold sortedStreams
  exact List.eq_of_perm_of_sorted
    ((List.perm_insertionSort _ _).trans
      (((hp.map _).dedup).trans (List.perm_insertionSort _ _).symm))
    (List.sorted_insertionSort (fun a b : String => a ≤ b) _)
    (List.sorted_insertionSort (fun a b : String => a ≤ b) _)

/-- **C3** — Plan determinism: for the same discovered shard set (with
pairwise distinct paths, as storage listings have) presented in any listing
order, the planner produces the identical plan, hence byte-identical
serialized plans, because each stream group is sorted by producing rank with
ties broken by path. -/
theorem plan_determinism (T : Nat) (l₁ l₂ : List ShardFile) (hp : l₁.Perm l₂)
    (hn : (l₁.map ShardFile.path).Nodup) :
    planFromListing T l₁ = planFromListing T l₂ ∧
    serializePlanResult (planFromListing T l₁)
      = serializePlanResult (planFromListing T l₂) := by
  have hmain : planFromListing T l₁ = planFromListing T l₂ := by
    unfold planFromListing
    have hemp : l₁.isEmpty = l₂.isEmpty := by
      cases l₂ with
      | nil => rw [hp.eq_nil]
      | cons b l₂' =>
        cases l₁ with
        | nil => exact absurd hp.symm.eq_nil (by simp)
        | cons a l₁' => rfl
    have hgr : ∀ s, groupFor l₁ s = groupFor l₂ s := fun s =>
      groupFor_perm_eq l₁ l₂ hp hn s
    rw [hemp, sortedStreams_perm_eq l₁ l₂ hp]
    simp only [hgr]
  exact ⟨hmain, by rw [hmain]⟩

theorem plan_determinism_witness :
    planFromListing 1 [⟨"A", 1, "p1", 10⟩, ⟨"A", 0, "p0", 5⟩]
      = planFromListing 1 [⟨"A", 0, "p0", 5⟩, ⟨"A", 1, "p1", 10⟩] ∧
    serializePlanResult
        (planFromListing 1 [⟨"A", 1, "p1", 10⟩, ⟨"A", 0, "p0", 5⟩])
      = serializePlanResult
        (planFromListing 1 [⟨"A", 0, "p0", 5⟩, ⟨"A", 1, "p1", 10⟩]) :=
  plan_determinism 1 [⟨"A", 1, "p1", 10⟩, ⟨"A", 0, "p0", 5⟩]
    [⟨"A", 0, "p0", 5⟩, ⟨"A", 1, "p1", 10⟩] (by decide) (by decide)

/-! ## C4: merge idempotence -/

lemma executeTargets_cons (σ : Storage) (out : String) (t : MergeTarget)
    (ts : List MergeTarget) :
    executeTargets σ out (t :: ts)
      = ((executeTargets (executeTarget σ out t).1 out ts).1,
          (executeTarget σ out t).2 ::
            (executeTargets (executeTarget σ out t).1 out ts).2) := rfl

lemma executeTarget_skip (σ : Storage) (out : String) (t : MergeTarget)
    (h : (σ (finalPath out t)).isSome) :
    executeTarget σ out t = (σ, .skipped) := by
  unfold executeTarget
  rw [if_pos h]

lemma executeTarget_fail (σ : Storage) (out : String) (t : MergeTarget)
    (e : MergeError) (h1 : σ (finalPath out t) = none)
    (h2 : readSources σ t.sources = .error e) :
    executeTarget σ out t = (σ, .failed e) := by
  unfold executeTarget
  rw [h1, h2]
  rfl

lemma executeTarget_publish (σ : Storage) (out : String) (t : MergeTarget)
    (chunks : List Bytes) (h1 : σ (finalPath out t) = none)
    (h2 : readSources σ t.sources = .ok chunks) :
    executeTarget σ out t
      = (publish σ (finalPath out t) (.ok chunks), .published) := by
  unfold executeTarget
  rw [h1, h2]
  rfl

lemma readSources_congr (σ₁ σ₂ : Storage) :
    ∀ (srcs : List ShardFile), (∀ s ∈ srcs, σ₁ s.path = σ₂ s.path) →
      readSources σ₁ srcs = readSources σ₂ srcs := by
  intro srcs
  induction srcs with
  | nil => intro _; rfl
  | cons s rest ih =>
    intro h
    simp only [readSources]
    rw [h s (List.mem_cons_self s rest),
      ih (fun x hx => h x (List.mem_cons_of_mem _ hx))]

lemma executeTargets_untouched (out : String) :
    ∀ (ts : List MergeTarget) (σ : Storage) (q : Path),
      (∀ t ∈ ts, q ≠ finalPath out t ∧ q ≠ tmpPath (finalPath out t)) →
      (executeTargets σ out ts).1 q = σ q := by
  intro ts
  induction ts with
  | nil => intro σ q _; rfl
  | cons t rest ih =>
    intro σ q h
    show (executeTargets (executeTarget σ out t).1 out rest).1 q = σ q
    rw [ih _ _ (fun x hx => h x (List.mem_cons_of_mem _ hx))]
    have ht := h t (List.mem_cons_self t rest)
    by_cases hs : (σ (finalPath out t)).isSome
    · rw [executeTarget_skip σ out t hs]
    · rw [Option.not_isSome_iff_eq_none] at hs
      cases hr : readSources σ t.sources with
      | error e => rw [executeTarget_fail σ out t e hs hr]
      | ok chunks =>
        rw [executeTarget_publish σ out t chunks hs hr]
        show publish σ (finalPath out t) (.ok chunks) q = σ q
        rw [publish_ok_eval, if_neg ht.1, if_neg ht.2]

lemma executeTargets_isSome_mono (out : String) :
    ∀ (ts : List MergeTarget) (σ : Storage) (q : Path),
      (∀ t ∈ ts, q ≠ tmpPath (finalPath out t)) →
      (σ q).isSome → ((executeTargets σ out ts).1 q).isSome := by
  intro ts
  induction ts with
  | nil => intro σ q _ hq; exact hq
  | cons t rest ih =>
    intro σ q h hq
    show ((executeTargets (executeTarget σ out t).1 out rest).1 q).isSome
    apply ih _ _ (fun x hx => h x (List.mem_cons_of_mem _ hx))
    by_cases hs : (σ (finalPath out t)).isSome
    · rw [executeTarget_skip σ out t hs]
      exact hq
    · rw [Option.not_isSome_iff_eq_none] at hs
      cases hr : readSources σ t.sources with
      | error e =>
        rw [executeTarget_fail σ out t e hs hr]
        exact hq
      | ok chunks =>
        rw [executeTarget_publish σ out t chunks hs hr]
        show ((publish σ (finalPath out t) (.ok chunks)) q).isSome
        rw [publish_ok_eval]
        by_cases hqf : q = finalPath out t
        · rw [if_pos hqf]
          rfl
        · rw [if_neg hqf, if_neg (h t (List.mem_cons_self t rest))]
          exact hq

/-- Re-running the executor pass over the same owned target list from the
state the first pass produced changes nothing: the storage is returned as-is
and every target published by the first pass is now skipped (everything else
repeats its outcome). -/
lemma executeTargets_rerun (out : String) :
    ∀ (ts : List MergeTarget) (σ : Storage),
      (∀ t ∈ ts, ∀ t' ∈ ts, ∀ s ∈ t'.sources,
        finalPath out t ≠ s.path ∧ tmpPath (finalPath out t) ≠ s.path) →
      (∀ t ∈ ts, ∀ t' ∈ ts, tmpPath (finalPath out t) ≠ finalPath out t') →
      (ts.map fun t => finalPath out t).Nodup →
      executeTargets (executeTargets σ out ts).1 out ts
        = ((executeTargets σ out ts).1,
            (executeTargets σ out ts).2.map TargetOutcome.onRerun) := by
  intro ts
  induction ts with
  | nil => intro σ _ _ _; rfl
  | cons t rest ih =>
    intro σ hsep1 hsep2 hnodup
    rw [List.map_cons] at hnodup
    have hsep1' : ∀ t' ∈ rest, ∀ t'' ∈ rest, ∀ s ∈ t''.sources,
        finalPath out t' ≠ s.path ∧ tmpPath (finalPath out t') ≠ s.path :=
      fun t' h1 t'' h2 s hsrc =>
        hsep1 t' (List.mem_cons_of_mem _ h1) t'' (List.mem_cons_of_mem _ h2)
          s hsrc
    have hsep2' : ∀ t' ∈ rest, ∀ t'' ∈ rest,
        tmpPath (finalPath out t') ≠ finalPath out t'' :=
      fun t' h1 t'' h2 =>
        hsep2 t' (List.mem_cons_of_mem _ h1) t'' (List.mem_cons_of_mem _ h2)
    have hnodup' := (List.nodup_cons.mp hnodup).2
    have htmp_ne_fp : ∀ x ∈ rest, finalPath out t ≠ tmpPath (finalPath out x) :=
      fun x hx =>
        (hsep2 x (List.mem_cons_of_mem _ hx) t (List.mem_cons_self t rest)).symm
    have hhead : executeTarget
        (executeTargets (executeTarget σ out t).1 out rest).1 out t
        = ((executeTargets (executeTarget σ out t).1 out rest).1,
            TargetOutcome.onRerun (executeTarget σ out t).2) := by
      by_cases hs : (σ (finalPath out t)).isSome
      · rw [executeTarget_skip σ out t hs]
        exact executeTarget_skip _ out t
          (executeTargets_isSome_mono out rest σ _ htmp_ne_fp hs)
      · rw [Option.not_isSome_iff_eq_none] at hs
        cases hr : readSources σ t.sources with
        | ok chunks =>
          rw [executeTarget_publish σ out t chunks hs hr]
          have h1 : ((publish σ (finalPath out t) (.ok chunks))
              (finalPath out t)).isSome := by
            rw [publish_ok_eval, if_pos rfl]
            rfl
          exact executeTarget_skip _ out t
            (executeTargets_isSome_mono out rest _ _ htmp_ne_fp h1)
        | error e =>
          rw [executeTarget_fail σ out t e hs hr]
          have havoid : ∀ x ∈ rest,
              finalPath out t ≠ finalPath out x ∧
              finalPath out t ≠ tmpPath (finalPath out x) := by
            intro x hx
            refine ⟨?_, htmp_ne_fp x hx⟩
            intro hcontra
            exact (List.nodup_cons.mp hnodup).1
              (List.mem_map.mpr ⟨x, hx, hcontra.symm⟩)
          have hfp : (executeTargets σ out rest).1 (finalPath out t)
              = none := by
            rw [executeTargets_untouched out rest σ _ havoid]
            exact hs
          have hread : readSources (executeTargets σ out rest).1 t.sources
              = .error e := by
            rw [readSources_congr _ σ t.sources ?_]
            · exact hr
            · intro s hsrc
              apply executeTargets_untouched out rest σ
              intro x hx
              have hx' := hsep1 x (List.mem_cons_of_mem _ hx) t
                (List.mem_cons_self _ _) s hsrc
              exact ⟨hx'.1.symm, hx'.2.symm⟩
          exact executeTarget_fail _ out t e hfp hread
    have ihrest := ih (executeTarget σ out t).1 hsep1' hsep2' hnodup'
    show executeTargets
        (executeTargets (executeTarget σ out t).1 out rest).1 out (t :: rest)
      = ((executeTargets (executeTarget σ out t).1 out rest).1,
          ((executeTarget σ out t).2 ::
            (executeTargets (executeTarget σ out t).1 out rest).2).map
              TargetOutcome.onRerun)
    rw [List.map_cons, executeTargets_cons, hhead]
    show ((executeTargets
          (executeTargets (executeTarget σ out t).1 out rest).1 out rest).1,
        TargetOutcome.onRerun (executeTarget σ out t).2 ::
          (executeTargets
            (executeTargets (executeTarget σ out t).1 out rest).1
              out rest).2)
      = _
    rw [ihrest]

/-- **C4** — Merge idempotence: running the executor a second time over the
same plan and the same (rank, world_size) assignment (the owned targets are
the round-robin slice of the plan's target list) leaves the storage exactly
as the first run left it, every target published by the first run is skipped
as a no-op, and the second run publishes nothing (no duplicate writes).
Hypotheses: artifact final/temporary paths do not collide with source paths
or with each other (targets live in a dedicated output namespace). -/
theorem merge_idempotence (σ : Storage) (out : String) (plan : MergePlan)
    (rank world_size : Nat)
    (hsep1 : ∀ t ∈ pySlice plan.targets rank world_size,
      ∀ t' ∈ pySlice plan.targets rank world_size, ∀ s ∈ t'.sources,
      finalPath out t ≠ s.path ∧ tmpPath (finalPath out t) ≠ s.path)
    (hsep2 : ∀ t ∈ pySlice plan.targets rank world_size,
      ∀ t' ∈ pySlice plan.targets rank world_size,
      tmpPath (finalPath out t) ≠ finalPath out t')
    (hnodup : ((pySlice plan.targets rank world_size).map
      fun t => finalPath out t).Nodup) :
    (executeTargets
        (executeTargets σ out (pySlice plan.targets rank world_size)).1
        out (pySlice plan.targets rank world_size)).1
      = (executeTargets σ out (pySlice plan.targets rank world_size)).1 ∧
    (executeTargets
        (executeTargets σ out (pySlice plan.targets rank world_size)).1
        out (pySlice plan.targets rank world_size)).2
      = (executeTargets σ out (pySlice plan.targets rank world_size)).2.map
          TargetOutcome.onRerun ∧
    (∀ i : Nat, (executeTargets σ out (pySlice plan.targets rank world_size)).2[i]?
        = some .published →
      (executeTargets
          (executeTargets σ out (pySlice plan.targets rank world_size)).1
          out (pySlice plan.targets rank world_size)).2[i]?
        = some .skipped) ∧
    (∀ o ∈ (executeTargets
        (executeTargets σ out (pySlice plan.targets rank world_size)).1
        out (pySlice plan.targets rank world_size)).2,
      o ≠ .published) := by
  have h := executeTargets_rerun out (pySlice plan.targets rank world_size) σ
    hsep1 hsep2 hnodup
  have hB : (executeTargets
      (executeTargets σ out (pySlice plan.targets rank world_size)).1
      out (pySlice plan.targets rank world_size)).2
      = (executeTargets σ out (pySlice plan.targets rank world_size)).2.map
        TargetOutcome.onRerun := by
    rw [h]
  refine ⟨by rw [h], hB, ?_, ?_⟩
  · intro i hi
    rw [hB, List.getElem?_map, hi]
    rfl
  · intro o ho
    rw [hB] at ho
    obtain ⟨x, _, rfl⟩ := List.mem_map.mp ho
    cases x <;> simp [TargetOutcome.onRerun]

theorem merge_idempotence_witness :
    (executeTargets
        (executeTargets (fun p => if p = "src" then some [7] else none) "out"
          (pySlice (MergePlan.mk 1
            [⟨"t0", [⟨"s", 0, "src", 1⟩]⟩]).targets 0 1)).1
        "out" (pySlice (MergePlan.mk 1
          [⟨"t0", [⟨"s", 0, "src", 1⟩]⟩]).targets 0 1)).1
      = (executeTargets (fun p => if p = "src" then some [7] else none) "out"
          (pySlice (MergePlan.mk 1
            [⟨"t0", [⟨"s", 0, "src", 1⟩]⟩]).targets 0 1)).1 ∧
    (executeTargets
        (executeTargets (fun p => if p = "src" then some [7] else none) "out"
          (pySlice (MergePlan.mk 1
            [⟨"t0", [⟨"s", 0, "src", 1⟩]⟩]).targets 0 1)).1
        "out" (pySlice (MergePlan.mk 1
          [⟨"t0", [⟨"s", 0, "src", 1⟩]⟩]).targets 0 1)).2
      = (executeTargets (fun p => if p = "src" then some [7] else none) "out"
          (pySlice (MergePlan.mk 1
            [⟨"t0", [⟨"s", 0, "src", 1⟩]⟩]).targets 0 1)).2.map
          TargetOutcome.onRerun ∧
    (∀ i : Nat, (executeTargets (fun p => if p = "src" then some [7] else none)
        "out" (pySlice (MergePlan.mk 1
          [⟨"t0", [⟨"s", 0, "src", 1⟩]⟩]).targets 0 1)).2[i]?
        = some .published →
      (executeTargets
          (executeTargets (fun p => if p = "src" then some [7] else none)
            "out" (pySlice (MergePlan.mk 1
              [⟨"t0", [⟨"s", 0, "src", 1⟩]⟩]).targets 0 1)).1
          "out" (pySlice (MergePlan.mk 1
            [⟨"t0", [⟨"s", 0, "src", 1⟩]⟩]).targets 0 1)).2[i]?
        = some .skipped) ∧
    (∀ o ∈ (executeTargets
        (executeTargets (fun p => if p = "src" then some [7] else none) "out"
          (pySlice (MergePlan.mk 1
            [⟨"t0", [⟨"s", 0, "src", 1⟩]⟩]).targets 0 1)).1
        "out" (pySlice (MergePlan.mk 1
          [⟨"t0", [⟨"s", 0, "src", 1⟩]⟩]).targets 0 1)).2,
      o ≠ .published) :=
  merge_idempotence (fun p => if p = "src" then some [7] else none) "out"
    (MergePlan.mk 1 [⟨"t0", [⟨"s", 0, "src", 1⟩]⟩]) 0 1
    (by decide) (by decide) (by decide)

end Datatrove
